import Mathlib

/-!
Verification of the tiro-tts text frontend pipeline.

Shallow embedding of `src/frontend/normalization.py` and
`src/frontend/grapheme_to_phoneme.py`.  Strings are modelled as `List Char`,
UTF-8 byte buffers as `List Nat`.  Helper modules of the repository that are
not available (`src/frontend/words.py`, `src/frontend/common.py`,
`src/frontend/lexicon.py`, `src/frontend/phonemes.py`,
`src/utils/version.py`) are modelled from the specification; each such
definition carries a doc comment saying so.
-/

/-- Strings of the Python source are modelled as lists of characters. -/
abbrev Str := List Char

/-- Concatenation of a list of lists, i.e. Python `"".join` / list flattening. -/
def joinL : List (List α) → List α
  | [] => []
  | x :: xs => x ++ joinL xs

/-- UTF-8 encoding of a single character as a list of byte values, the
standard 1-to-4 byte encoding used by Python's `str.encode()`. -/
def utf8EncChar (c : Char) : List Nat :=
  let v := c.toNat
  if v < 128 then [v]
  else if v < 2048 then [192 + v / 64, 128 + v % 64]
  else if v < 65536 then [224 + v / 4096, 128 + (v / 64) % 64, 128 + v % 64]
  else [240 + v / 262144, 128 + (v / 4096) % 64, 128 + (v / 64) % 64, 128 + v % 64]

/-- UTF-8 encoding of a string, i.e. Python `s.encode("utf-8")`. -/
def utf8Enc (s : Str) : List Nat := joinL (s.map utf8EncChar)

/-- Embeds `utf8_byte_length` of src/frontend/common.py (absent from src/):
the number of bytes in the UTF-8 encoding of a string, `len(s.encode())`. -/
def utf8ByteLength (s : Str) : Nat := (utf8Enc s).length

/-- Python `str.strip()`: remove leading and trailing whitespace. -/
def stripStr (s : Str) : Str :=
  ((s.dropWhile Char.isWhitespace).reverse.dropWhile Char.isWhitespace).reverse

/-- Python `s.startswith(c)` for a single character `c`. -/
def startsWithC (c : Char) (s : Str) : Bool :=
  match s with
  | [] => false
  | a :: _ => a == c

/-- Python `s.endswith(c)` for a single character `c`. -/
def endsWithC (c : Char) (s : Str) : Bool :=
  match s.getLast? with
  | some a => a == c
  | none => false

/-- Python `str.lower()` (character-wise). -/
def toLowerStr (s : Str) : Str := s.map Char.toLower

/-- Accumulator loop for whitespace splitting. -/
def splitWsAux : Str → Str → List Str
  | [], acc => if acc = [] then [] else [acc.reverse]
  | c :: cs, acc =>
    if c.isWhitespace then
      if acc = [] then splitWsAux cs [] else acc.reverse :: splitWsAux cs []
    else splitWsAux cs (c :: acc)

/-- Python `str.split()` with no argument: split on runs of whitespace,
discarding empty pieces. -/
def splitWs (s : Str) : List Str := splitWsAux s []

/-- Opening brace character (written numerically). -/
def lbrace : Char := Char.ofNat 123

/-- Closing brace character (written numerically). -/
def rbrace : Char := Char.ofNat 125

/-- Token kinds of the external Miðeind tokenizer; the frontend only ever
distinguishes sentence-end tokens (`TOK.S_END`) from the rest. -/
inductive TokKind where
  | s_end
  | word
  | punct
deriving DecidableEq

/-- A token of the external tokenizer collaborator: its kind, its raw
`original` text (including any preceding whitespace) and `origin_spans`,
the indices inside `original` of the characters of the token text. -/
structure Tok where
  kind : TokKind
  original : Str
  origin_spans : List Nat
deriving DecidableEq

/-- SSML properties attached to a Word.  Modelled from the spec §3:
`tag_type`, `is_multi`, and free-form prosody fields (`src/frontend/ssml.py`
and `src/frontend/words.py` are absent from src/). -/
structure SSMLProps where
  tag_type : Str := []
  is_multi : Bool := false
  rate : Str := []
  pitch : Str := []
  volume : Str := []
deriving DecidableEq

/-- Modelled from the spec §3 (src/frontend/words.py is absent from src/):
a Word carries the raw substring, the normalized symbol, the phone sequence,
a half-open byte range into the original buffer (absent on the sentence
separator sentinel) and optional SSML properties. -/
structure Word where
  original_symbol : Str := []
  symbol : Str := []
  phone_sequence : List Str := []
  start_byte_offset : Option Nat := none
  end_byte_offset : Option Nat := none
  ssml_props : Option SSMLProps := none
deriving DecidableEq

/-- Modelled from the spec §3: the sentence separator sentinel is the
default-initialized Word (empty symbol, no offsets). -/
def WORD_SENTENCE_SEPARATOR : Word := {}

/-- Embeds `add_token_offsets` of src/frontend/normalization.py, generalized
over the running byte counter `n_bytes_consumed`.  Sentence-end tokens are
kept with offsets (0, 0); tokens with no origin spans or no original text are
dropped without advancing the counter; for the rest the start offset is the
counter plus the byte length of `original[:origin_spans[0]]` and the end
offset adds the byte length of `original[origin_spans[0]:origin_spans[-1]+1]`,
after which the counter advances by the byte length of `original`. -/
def addTokenOffsetsFrom (n : Nat) : List Tok → List (Tok × Nat × Nat)
  | [] => []
  | t :: ts =>
    if t.kind = TokKind.s_end then
      (t, 0, 0) :: addTokenOffsetsFrom n ts
    else if t.origin_spans.isEmpty || t.original.isEmpty then
      addTokenOffsetsFrom n ts
    else
      let s0 := t.origin_spans.headD 0
      let sl := t.origin_spans.getLastD 0
      let sOff := n + utf8ByteLength (t.original.take s0)
      let eOff := sOff + utf8ByteLength ((t.original.drop s0).take (sl + 1 - s0))
      (t, sOff, eOff) :: addTokenOffsetsFrom (n + utf8ByteLength t.original) ts

/-- Embeds `add_token_offsets` with the counter starting at zero. -/
def addTokenOffsets (toks : List Tok) : List (Tok × Nat × Nat) :=
  addTokenOffsetsFrom 0 toks

/-- Embeds the scanner loop of `_tokenize` in src/frontend/normalization.py:
state `phonemeOpen` mirrors `phoneme_str_open`, `segs` mirrors
`current_word_segments`.  Sentence-end entries are skipped (the sentinel
yield is commented out in the source); in the open state stripped tokens
accumulate until one ends with a closing brace, which emits one Word whose
symbol is the concatenation of the accumulated segments and whose offsets
are those of the closing token; in the closed state a stripped token that
starts with an opening brace and does not end with a closing brace opens the
accumulator, anything else is emitted as a Word. -/
def tokLoop (phonemeOpen : Bool) (segs : List Str) :
    List (Tok × Nat × Nat) → List Word
  | [] => []
  | (t, sOff, eOff) :: rest =>
    if t.kind = TokKind.s_end then
      tokLoop phonemeOpen segs rest
    else
      let w := stripStr t.original
      if phonemeOpen then
        if endsWithC rbrace w then
          { original_symbol := joinL (segs ++ [w]),
            symbol := joinL (segs ++ [w]),
            start_byte_offset := some sOff,
            end_byte_offset := some eOff } :: tokLoop false [] rest
        else
          tokLoop true (segs ++ [w]) rest
      else
        if startsWithC lbrace w && !endsWithC rbrace w then
          tokLoop true (segs ++ [w]) rest
        else
          { original_symbol := w,
            symbol := w,
            start_byte_offset := some sOff,
            end_byte_offset := some eOff } :: tokLoop false segs rest

/-- Embeds `_tokenize` (and hence `BasicNormalizer.normalize`) over the token
stream returned by the external tokenizer. -/
def tokenizeWords (toks : List Tok) : List Word :=
  tokLoop false [] (addTokenOffsets toks)

/-- Flattened list of the start and end byte offsets of a Word stream, in
emission order. -/
def offsetsOf (ws : List Word) : List Nat :=
  joinL (ws.map fun w => [w.start_byte_offset.getD 0, w.end_byte_offset.getD 0])

/-- Section of `original` selected by the origin spans,
`original[origin_spans[0] : origin_spans[-1] + 1]`. -/
def middleSlice (t : Tok) : Str :=
  (t.original.drop (t.origin_spans.headD 0)).take
    (t.origin_spans.getLastD 0 + 1 - t.origin_spans.headD 0)

/-- Contract of the external tokenizer for a single token: sentence-end
tokens and tokens without origin spans carry no original text, and for
ordinary tokens the span section of `original` is exactly its stripped
form. -/
def tokOK (t : Tok) : Prop :=
  (t.kind = TokKind.s_end → t.original = []) ∧
  (t.origin_spans = [] → t.original = []) ∧
  (t.kind ≠ TokKind.s_end → t.origin_spans ≠ [] → middleSlice t = stripStr t.original)

/-- Contract of the external tokenizer for a whole stream: the input text is
the concatenation of the tokens' original texts and every token satisfies
`tokOK`. -/
def toksWF (text : Str) (toks : List Tok) : Prop :=
  text = joinL (toks.map fun t => t.original) ∧ ∀ t ∈ toks, tokOK t

instance instDecTokOK (t : Tok) : Decidable (tokOK t) := by
  unfold tokOK; infer_instance

instance instDecToksWF (text : Str) (toks : List Tok) : Decidable (toksWF text toks) := by
  unfold toksWF; infer_instance

/-- Condition under which a token opens the inside-braces scanner state of
`_tokenize`: its stripped text starts with an opening brace and does not end
with a closing brace. -/
def opensBraceTok (t : Tok) : Bool :=
  startsWithC lbrace (stripStr t.original) && !endsWithC rbrace (stripStr t.original)

/-- Characters of Python's `string.punctuation` with the brace and bracket
characters removed, as computed by `re.sub(r"[{}\[\]]", "", string.punctuation)`
in the source (given numerically). -/
def punctNoBraces : List Char :=
  [33, 34, 35, 36, 37, 38, 39, 40, 41, 42, 43, 44, 45, 46, 47, 58, 59, 60,
   61, 62, 63, 64, 92, 94, 95, 96, 124, 126].map Char.ofNat

/-- Membership in the brace-free punctuation set. -/
def isPunctNB (c : Char) : Bool := punctNoBraces.contains c

/-- Embeds the `re.sub(r"([<punct>])", r" \1 ", s)` step of
`translate_words`: surround every brace-free punctuation character with
spaces. -/
def spacePunct (s : Str) : Str :=
  joinL (s.map fun c => if isPunctNB c then [' ', c, ' '] else [c])

/-- Embeds the `re.sub(r"([<punct>])", "", s)` step of
`IceG2PTranslator._translate`: delete every brace-free punctuation
character. -/
def stripPunctAll (s : Str) : Str := s.filter fun c => !isPunctNB c

/-- Target phonetic alphabets, the Python string literals "ipa", "x-sampa"
and "x-sampa+syll+stress". -/
inductive Alphabet where
  | ipa
  | xsampa
  | xsampaSyllStress
deriving DecidableEq

/-- Embeds `Word.is_from_ssml` (src/frontend/words.py, absent from src/):
modelled from the spec as the presence of SSML properties. -/
def isFromSSML (w : Word) : Bool := w.ssml_props.isSome

/-- Modelled from the spec §4.2 (src/frontend/words.py is absent from src/):
a symbol is spoken when it has linguistic content, i.e. it is not
whitespace-only and is not an SSML control tag (starting with '<'). -/
def isSpokenSym (s : Str) : Bool :=
  (s.any fun c => !c.isWhitespace) && !startsWithC '<' s

/-- Embeds `Word.is_spoken` via the spoken condition on the raw symbol. -/
def wordIsSpoken (w : Word) : Bool := isSpokenSym w.original_symbol

/-- The `ssml_tag_skiplist` of `translate_words`: exactly the `phoneme`
tag. -/
def ssmlTagSkiplist : List Str := ["phoneme".data]

/-- Tag type of a Word's SSML properties (empty when no properties; the
source only reads it under an `is_from_ssml` guard). -/
def tagTypeOf (w : Word) : Str :=
  match w.ssml_props with
  | some p => p.tag_type
  | none => []

/-- Embeds the `should_translate` condition of
`GraphemeToPhonemeTranslatorBase.translate_words`, clause for clause:
(not from SSML and not the sentence separator) or (from SSML and the tag is
not in the skiplist and not the sentence separator). -/
def shouldTranslate (w : Word) : Bool :=
  (!isFromSSML w && !(decide (w = WORD_SENTENCE_SEPARATOR))) ||
  (isFromSSML w && !(ssmlTagSkiplist.contains (tagTypeOf w)) &&
    !(decide (w = WORD_SENTENCE_SEPARATOR)))

/-- Embeds the phone-sequence computation of `translate_words` for a word
that is translated: space out punctuation, split on whitespace, translate
each piece with the translator's `translate` and concatenate. -/
def newPhones (tr : Str → List Str) (w : Word) : List Str :=
  joinL ((splitWs (spacePunct w.symbol)).map tr)

/-- The syllable-boundary marker Word yielded after spoken words when the
alphabet is the stress variant. -/
def syllSepWord : Word := { phone_sequence := [".".data] }

/-- Embeds one iteration of the `translate_words` loop for one input Word:
the word itself (with `phone_sequence` recomputed when `should_translate`
holds) followed by the syllable-boundary marker when the word is spoken and
the alphabet is the stress variant. -/
def translateWordStep (tr : Str → List Str) (alph : Alphabet) (w : Word) :
    List Word :=
  let w' := if shouldTranslate w then { w with phone_sequence := newPhones tr w } else w
  w' :: (if wordIsSpoken w' && decide (alph = Alphabet.xsampaSyllStress)
         then [syllSepWord] else [])

/-- Embeds `GraphemeToPhonemeTranslatorBase.translate_words` as the
concatenation of the per-word steps, in input order. -/
def translateWords (tr : Str → List Str) (alph : Alphabet) (ws : List Word) :
    List Word :=
  joinL (ws.map (translateWordStep tr alph))

/-- Embeds `ComposedTranslator.translate`: try each translator in order and
return the first non-empty result; the empty sequence when all fail. -/
def composedTranslate (ts : List (Str → List Str)) (text : Str) : List Str :=
  match ts with
  | [] => []
  | t :: rest =>
    let p := t text
    if p = [] then composedTranslate rest text else p

/-- Modelled from the spec §2/§6 (src/frontend/lexicon.py is absent from
src/): the Lexicon is an in-memory mapping from orthographic word to an IPA
phone sequence; `get` returns the stored sequence or the supplied default
(here the empty sequence). -/
def lexGet (lex : List (Str × List Str)) (w : Str) : List Str :=
  match lex.find? (fun e => decide (e.1 = w)) with
  | some e => e.2
  | none => []

/-- Modelled from the spec §2 (src/frontend/phonemes.py is absent from
src/): a fragment of the IPA to X-SAMPA symbol table; conversion maps each
phone through the table. -/
def ipaToXsampaTable : List (Str × Str) :=
  [("a".data, "a".data), ("ɛ".data, "E".data), ("ɪ".data, "I".data),
   ("θ".data, "T".data), ("ð".data, "D".data), ("œ".data, "9".data)]

/-- Modelled from the spec: `convert_ipa_to_xsampa` maps each phone through
the IPA to X-SAMPA table, keeping unknown symbols unchanged. -/
def convert_ipa_to_xsampa (ps : List Str) : List Str :=
  ps.map fun p =>
    match ipaToXsampaTable.find? (fun e => decide (e.1 = p)) with
    | some e => e.2
    | none => p

/-- Modelled from the spec: `convert_xsampa_to_ipa` maps each phone through
the reverse of the IPA to X-SAMPA table. -/
def convert_xsampa_to_ipa (ps : List Str) : List Str :=
  ps.map fun p =>
    match ipaToXsampaTable.find? (fun e => decide (e.2 = p)) with
    | some e => e.1
    | none => p

/-- Modelled from the spec: `convert_xsampa_to_xsampa_with_stress` annotates
a non-empty phone sequence with a leading stress mark on its first phone and
leaves the empty sequence empty. -/
def convert_xsampa_to_xsampa_with_stress (ps : List Str) (_w : Str) : List Str :=
  match ps with
  | [] => []
  | p :: rest => ("1".data ++ p) :: rest

/-- Alphabet conversion applied to a looked-up IPA phone sequence, exactly
as in the tail of `LexiconGraphemeToPhonemeTranslator._translate`: identity
for IPA, IPA to X-SAMPA otherwise, followed by the stress annotation for the
stress variant. -/
def alphaConvertLex (alph : Alphabet) (w : Str) (ps : List Str) : List Str :=
  if alph = Alphabet.ipa then ps
  else
    let ps' := convert_ipa_to_xsampa ps
    if alph = Alphabet.xsampaSyllStress then
      convert_xsampa_to_xsampa_with_stress ps' w
    else ps'

/-- Embeds `LexiconGraphemeToPhonemeTranslator._translate`: look up the word
verbatim, then lowercased, in the lexicon; convert the result to the target
alphabet afterwards. -/
def lexTranslate (lex : List (Str × List Str)) (w : Str) (alph : Alphabet) :
    List Str :=
  let phones := lexGet lex w
  let phones := if phones = [] then lexGet lex (toLowerStr w) else phones
  if alph = Alphabet.ipa then phones
  else
    let phones := convert_ipa_to_xsampa phones
    if alph = Alphabet.xsampaSyllStress then
      convert_xsampa_to_xsampa_with_stress phones w
    else phones

/-- Truth of an `Except` result. -/
def isOkE : Except ε α → Bool
  | Except.ok _ => true
  | Except.error _ => false

/-- Embeds `IceG2PTranslator._translate`.  The external transcriber is a
function of the current syllable symbol and the lowercased input which may
fail; the translator's mutable `syllab_symbol` field is passed in as `syl`
and the resulting field value is returned alongside the result.  Following
the source: punctuation is deleted; whitespace-only input short-circuits;
when the alphabet is not the stress variant the syllable symbol is set to
empty for the call and restored only on successful return (there is no
try/finally in the source, so on failure the field keeps the empty value);
X-SAMPA output is split on whitespace and converted to IPA when
requested. -/
def iceTranslate (transcribe : Str → Str → Except Unit Str) (syl : Str)
    (text : Str) (alph : Alphabet) : Except Unit (List Str) × Str :=
  let t1 := stripPunctAll text
  if stripStr t1 = [] then (Except.ok [], syl)
  else if alph = Alphabet.xsampaSyllStress then
    match transcribe syl (toLowerStr t1) with
    | Except.error e => (Except.error e, syl)
    | Except.ok out => (Except.ok (splitWs out), syl)
  else
    match transcribe [] (toLowerStr t1) with
    | Except.error e => (Except.error e, [])
    | Except.ok out =>
      let phoneSeq := splitWs out
      (Except.ok (if alph = Alphabet.ipa then convert_xsampa_to_ipa phoneSeq
                  else phoneSeq), syl)

/-- Modelled from the spec §4.4 (src/frontend/common.py is absent from
src/): `consume_whitespace` returns the number of leading whitespace
characters of the view and their UTF-8 byte length. -/
def consumeWhitespace (s : Str) : Nat × Nat :=
  let ws := s.takeWhile Char.isWhitespace
  (ws.length, utf8ByteLength ws)

/-- Runtime failures the `GrammatekNormalizer.normalize` generator can raise:
indexing past the parsed word list, reading `tag_type` of absent SSML
properties, and `next` on an exhausted or empty token iterator (a
`StopIteration` inside a generator surfaces as `RuntimeError`). -/
inductive GNErr where
  | indexError
  | attrError
  | runtimeError
deriving DecidableEq

/-- Embeds the per-sentence loop of `GrammatekNormalizer.normalize` over the
(original, normalized) token pairs of one sentence.  State: running byte
counter, remaining text view and cursor `p_idx` into the parsed SSML word
list.  For a spoken SSML token whose parsed word is a multi-word phoneme
tag, the original token is replaced by the full parsed original text and —
as the source's `next(islice(sent_iter, skip_length))` consumes exactly one
element of the shared iterator — exactly one following pair is dropped (a
`RuntimeError` surfaces when none remains or when the skip length is
zero). -/
def gnSentLoop (parsed : List Word) (isSSML : Bool) :
    List (Str × Str) → Nat → Str → Nat →
    List Word × Nat × Str × Nat × Option GNErr
  | [], n, tv, p => ([], n, tv, p, none)
  | (original, normalized) :: rest, n, tv, p =>
    let spokenSSML := isSSML && isSpokenSym original
    let cw := consumeWhitespace tv
    let n1 := n + cw.2
    if spokenSSML then
      match parsed[p]? with
      | none => ([], n1, tv, p, some GNErr.indexError)
      | some pw =>
        match pw.ssml_props with
        | none => ([], n1, tv, p, some GNErr.attrError)
        | some props =>
          let phonemeMulti :=
            decide (props.tag_type = "phoneme".data) && props.is_multi
          let original' := if phonemeMulti then pw.original_symbol else original
          let tokLen := utf8ByteLength original'
          let wOut : Word :=
            { original_symbol := original', symbol := normalized,
              phone_sequence := pw.phone_sequence,
              start_byte_offset := some n1,
              end_byte_offset := some (n1 + tokLen) }
          let n2 := n1 + tokLen
          let tv' := tv.drop (cw.1 + original'.length)
          let p' := p + 1
          if phonemeMulti then
            if (splitWs original').length = 0 then
              ([wOut], n2, tv', p', some GNErr.runtimeError)
            else
              match rest with
              | [] => ([wOut], n2, tv', p', some GNErr.runtimeError)
              | _ :: rest2 =>
                let r := gnSentLoop parsed isSSML rest2 n2 tv' p'
                (wOut :: r.1, r.2)
          else
            let r := gnSentLoop parsed isSSML rest n2 tv' p'
            (wOut :: r.1, r.2)
    else
      let original' := original
      let tokLen := utf8ByteLength original'
      let wOut : Word :=
        { original_symbol := original', symbol := normalized,
          phone_sequence := [],
          start_byte_offset := some n1,
          end_byte_offset := some (n1 + tokLen) }
      let n2 := n1 + tokLen
      let tv' := tv.drop (cw.1 + original'.length)
      let r := gnSentLoop parsed isSSML rest n2 tv' p
      (wOut :: r.1, r.2)

/-- Embeds the outer sentence loop of `GrammatekNormalizer.normalize`: each
sentence's words followed by the sentence separator sentinel; an error
aborts the generator after the words already yielded. -/
def gnLoop (parsed : List Word) (isSSML : Bool) :
    List (List (Str × Str)) → Nat → Str → Nat → List Word × Option GNErr
  | [], _, _, _ => ([], none)
  | sent :: rest, n, tv, p =>
    let r := gnSentLoop parsed isSSML sent n tv p
    match r.2.2.2.2 with
    | some e => (r.1, some e)
    | none =>
      let r2 := gnLoop parsed isSSML rest r.2.1 r.2.2.1 r.2.2.2.1
      (r.1 ++ WORD_SENTENCE_SEPARATOR :: r2.1, r2.2)

/-- Embeds `GrammatekNormalizer.normalize` given the parsed SSML word list,
the external service's per-sentence token pairs and the initial text view
(the raw SSML text in SSML mode, the plain text otherwise). -/
def grammatekNormalize (parsed : List Word) (isSSML : Bool)
    (sentences : List (List (Str × Str))) (textView0 : Str) :
    List Word × Option GNErr :=
  gnLoop parsed isSSML sentences 0 textView0 0

/-- Fingerprints are byte lists. -/
abbrev Fingerprint := List Nat

/-- Modelled from the spec §3 (src/utils/version.py is absent from src/):
`hash_from_impl` is a deterministic content-derived fingerprint over the
class identity and the input bytes, which per the spec changes exactly when
an input artifact changes; modelled as the injective pairing of the two. -/
def hashFromImpl (cls : Str) (content : List Nat) : Fingerprint :=
  utf8Enc cls ++ 256 :: content

/-- Class identity of the lexicon-backed translator. -/
def lexiconClassName : Str := "LexiconGraphemeToPhonemeTranslator".data

/-- Embeds the `version_hash` computed in
`LexiconGraphemeToPhonemeTranslator.__init__` from the lexicon file's
bytes. -/
def lexiconVersionHash (lexBytes : List Nat) : Fingerprint :=
  hashFromImpl lexiconClassName lexBytes

/-- Join of child fingerprints, the model of `"-".join(...)` (45 is the byte
value of the dash). -/
def intercalateFP (sep : List Nat) : List (List Nat) → List Nat
  | [] => []
  | [x] => x
  | x :: xs => x ++ sep ++ intercalateFP sep xs

/-- Embeds `ComposedTranslator.version_hash`: the fingerprint of the class
identity and the dash-joined child fingerprints, in the children's fixed
order. -/
def composedVersionHash (childHashes : List Fingerprint) : Fingerprint :=
  hashFromImpl "ComposedTranslator".data (intercalateFP [45] childHashes)

/-- Concrete tokenizer output for the plain text "hello world". -/
def c1wToks : List Tok :=
  [⟨TokKind.word, "hello".data, [0, 1, 2, 3, 4]⟩,
   ⟨TokKind.word, " world".data, [1, 2, 3, 4, 5, 6]⟩]

/-- Concrete plain text "hello world". -/
def c1wText : Str := "hello world".data

/-- First Word of the tokenizer output for "hello world". -/
def c1wWord : Word :=
  { original_symbol := "hello".data, symbol := "hello".data,
    start_byte_offset := some 0, end_byte_offset := some 5 }

/-- Concrete tokenizer output for the embedded phoneme span input
"\x7bfoo bar\x7d". -/
def c1xToks : List Tok :=
  [⟨TokKind.word, "\x7bfoo".data, [0, 1, 2, 3]⟩,
   ⟨TokKind.word, " bar\x7d".data, [1, 2, 3, 4]⟩]

/-- Concrete embedded phoneme input text "\x7bfoo bar\x7d". -/
def c1xText : Str := "\x7bfoo bar\x7d".data

/-- The single Word the tokenizer emits for "\x7bfoo bar\x7d": the joined
segments with the offsets of the final token only. -/
def c1xWord : Word :=
  { original_symbol := "\x7bfoobar\x7d".data, symbol := "\x7bfoobar\x7d".data,
    start_byte_offset := some 5, end_byte_offset := some 9 }

/-- Concrete token stream for "Halló." whose sentence-end token has a
recoverable original span. -/
def c3Toks : List Tok :=
  [⟨TokKind.word, "Halló".data, [0, 1, 2, 3, 4]⟩,
   ⟨TokKind.s_end, ".".data, [0]⟩]

/-- The sentence-end token of `c3Toks`. -/
def c3SEnd : Tok := ⟨TokKind.s_end, ".".data, [0]⟩

/-- Concrete token entries for an unterminated brace span: the opening token
"\x7bab" followed by a token "cd" that never closes the brace. -/
def c10Opener : Tok := ⟨TokKind.word, "\x7bab".data, [0, 1, 2]⟩

/-- Token entries following the opener in the unterminated-brace example. -/
def c10Rest : List (Tok × Nat × Nat) :=
  [(⟨TokKind.word, " cd".data, [1, 2]⟩, 4, 6)]

/-- A translator that fails on every word. -/
def emptyTr : Str → List Str := fun _ => []

/-- A translator returning the two-phone sequence ["p", "q"] for every
word. -/
def duoTr : Str → List Str := fun _ => ["p".data, "q".data]

/-- A demo lexicon holding only the lowercase form "word". -/
def demoLex : List (Str × List Str) := [("word".data, ["p1".data])]

/-- A translator echoing its input as a single phone. -/
def demoTr : Str → List Str := fun w => [w]

/-- A demo plain word for the translate-words witnesses. -/
def demoWord : Word :=
  { original_symbol := "hi".data, symbol := "hi".data,
    start_byte_offset := some 0, end_byte_offset := some 2 }

/-- A transcriber that always raises. -/
def c6TrFail : Str → Str → Except Unit Str := fun _ _ => Except.error ()

/-- A transcriber that echoes its input. -/
def c6TrOk : Str → Str → Except Unit Str := fun _ t => Except.ok t

/-- Saved syllable symbol "." of the transcriber. -/
def c6Syl : Str := ".".data

/-- Concrete input text for the IceG2P witnesses. -/
def c6Text : Str := "ha".data

/-- SSML properties of a multi-word phoneme tag. -/
def c7Props : SSMLProps := { tag_type := "phoneme".data, is_multi := true }

/-- SSML properties of an ordinary single-word tag. -/
def c7PropsB : SSMLProps := { tag_type := "prosody".data, is_multi := false }

/-- Parsed SSML word list: a multi-word phoneme tag "A B" followed by a
plain word "C". -/
def c7Parsed : List Word :=
  [{ original_symbol := "A B".data, symbol := "A B".data,
     phone_sequence := ["p".data], ssml_props := some c7Props },
   { original_symbol := "C".data, symbol := "C".data,
     phone_sequence := ["q".data], ssml_props := some c7PropsB }]

/-- The external normalizer's response: one sentence whose three tokens are
the pieces "A", "B" and the following word "C". -/
def c7Sentences : List (List (Str × Str)) :=
  [[("A".data, "a".data), ("B".data, "b".data), ("C".data, "c".data)]]

/-- Original text view "A B C". -/
def c7Text : Str := "A B C".data

/-- The multi-word phoneme Word the realigner emits. -/
def c7WordAB : Word :=
  { original_symbol := "A B".data, symbol := "a".data,
    phone_sequence := ["p".data],
    start_byte_offset := some 0, end_byte_offset := some 3 }

/-- The Word the realigner emits for the service token "C", showing that the
pair ("C", "c") was not skipped. -/
def c7WordC : Word :=
  { original_symbol := "C".data, symbol := "c".data,
    phone_sequence := ["q".data],
    start_byte_offset := some 4, end_byte_offset := some 5 }

theorem joinL_append (xs ys : List (List α)) : joinL (xs ++ ys) = joinL xs ++ joinL ys := by
  induction xs with
  | nil => simp [joinL]
  | cons a as ih => simp [joinL, ih, List.append_assoc]

theorem utf8Enc_append (a b : Str) : utf8Enc (a ++ b) = utf8Enc a ++ utf8Enc b := by
  simp [utf8Enc, List.map_append, joinL_append]

theorem utf8ByteLength_append (a b : Str) :
    utf8ByteLength (a ++ b) = utf8ByteLength a + utf8ByteLength b := by
  simp [utf8ByteLength, utf8Enc_append]

theorem utf8ByteLength_take_le (s : Str) (m : Nat) :
    utf8ByteLength (s.take m) ≤ utf8ByteLength s := by
  conv_rhs => rw [← List.take_append_drop m s]
  rw [utf8ByteLength_append]
  exact Nat.le_add_right _ _

theorem slice_calc (P A B Q : List Nat) :
    ((P ++ (A ++ (B ++ Q))).drop (P.length + A.length)).take B.length = B := by
  have h1 : P ++ (A ++ (B ++ Q)) = (P ++ A) ++ (B ++ Q) := by simp [List.append_assoc]
  have h2 : P.length + A.length = (P ++ A).length := by simp
  rw [h1, h2, List.drop_left, List.take_left]

theorem composedTranslate_eq_find (ts : List (Str → List Str)) (w : Str) :
    composedTranslate ts w = ((ts.map fun t => t w).find? (fun r => !r.isEmpty)).getD [] := by
  induction ts with
  | nil => rfl
  | cons t rest ih =>
    by_cases h : t w = []
    · simp [composedTranslate, h, List.find?, ih]
    · have hne : (t w).isEmpty = false := by simp [List.isEmpty_iff, h]
      simp [composedTranslate, h, List.find?, hne]

theorem composed_all_empty (w : Str) :
    ∀ ts : List (Str → List Str), (∀ t ∈ ts, t w = []) → composedTranslate ts w = []
  | [], _ => rfl
  | t :: rest, h => by
    have ht : t w = [] := h t (by simp)
    have hr := composed_all_empty w rest (fun t' ht' => h t' (by simp [ht']))
    simp [composedTranslate, ht, hr]

/-- C4: `ComposedTranslator.translate` tries translators in order and returns
the first non-empty result with no merging; with T1 empty on `w` and T2
returning `[p1, p2]`, the composition returns `[p1, p2]`; when every
translator returns empty the result is empty. -/
theorem composed_first_match (ts : List (Str → List Str)) (t1 t2 : Str → List Str)
    (w p1 p2 : Str) :
    composedTranslate ts w = ((ts.map fun t => t w).find? (fun r => !r.isEmpty)).getD [] ∧
    (t1 w = [] → t2 w = [p1, p2] → composedTranslate [t1, t2] w = [p1, p2]) ∧
    ((∀ t ∈ ts, t w = []) → composedTranslate ts w = []) := by
  refine ⟨composedTranslate_eq_find ts w, ?_, composed_all_empty w ts⟩
  intro h1 h2
  simp [composedTranslate, h1, h2]

theorem composed_first_match_witness :
    composedTranslate [emptyTr, duoTr] "w".data = ["p".data, "q".data] ∧
    composedTranslate [emptyTr] "w".data = [] := by
  constructor
  · exact (composed_first_match [] emptyTr duoTr "w".data "p".data "q".data).2.1 rfl rfl
  · exact (composed_first_match [emptyTr] emptyTr emptyTr "w".data [] []).2.2
      (by intro t ht; simp at ht; subst ht; rfl)

/-- C5: the lexicon-backed `_translate` looks the word up verbatim, then
lowercased; total miss yields the empty sequence; alphabet conversion is
applied to the looked-up result after the lookup (the run for any target
alphabet equals the conversion of the IPA run). -/
theorem lexicon_lookup_order (lex : List (Str × List Str)) (w : Str) (alph : Alphabet) :
    (lexGet lex w ≠ [] → lexTranslate lex w alph = alphaConvertLex alph w (lexGet lex w)) ∧
    (lexGet lex w = [] →
      lexTranslate lex w alph = alphaConvertLex alph w (lexGet lex (toLowerStr w))) ∧
    (lexGet lex w = [] → lexGet lex (toLowerStr w) = [] → lexTranslate lex w alph = []) ∧
    lexTranslate lex w alph = alphaConvertLex alph w (lexTranslate lex w Alphabet.ipa) := by
  refine ⟨?_, ?_, ?_, ?_⟩
  · intro h
    cases alph <;> simp [lexTranslate, alphaConvertLex, h]
  · intro h
    cases alph <;> simp [lexTranslate, alphaConvertLex, h]
  · intro h1 h2
    cases alph <;>
      simp [lexTranslate, alphaConvertLex, h1, h2, convert_ipa_to_xsampa,
        convert_xsampa_to_xsampa_with_stress]
  · by_cases h : lexGet lex w = [] <;> cases alph <;>
      simp [lexTranslate, alphaConvertLex, h]

theorem lexicon_lookup_order_witness :
    lexTranslate demoLex "Word".data Alphabet.ipa = ["p1".data] := by
  have h := (lexicon_lookup_order demoLex "Word".data Alphabet.ipa).2.1 (by decide)
  rw [h]; decide

/-- C2: `translate_words` translates a Word exactly when it is not the
sentence separator and (it is not SSML-derived or its tag is not in the
skip-list, which is exactly `phoneme`); words failing the condition pass
through with their phone sequence untouched. -/
theorem translate_words_condition (tr : Str → List Str) (alph : Alphabet) (w : Word) :
    (shouldTranslate w = true ↔
      (w ≠ WORD_SENTENCE_SEPARATOR ∧
        (isFromSSML w = false ∨ tagTypeOf w ∉ ssmlTagSkiplist))) ∧
    ssmlTagSkiplist = ["phoneme".data] ∧
    (shouldTranslate w = false →
      translateWordStep tr alph w =
        w :: (if wordIsSpoken w && decide (alph = Alphabet.xsampaSyllStress)
              then [syllSepWord] else [])) ∧
    (shouldTranslate w = true →
      (translateWordStep tr alph w).head? =
        some { w with phone_sequence := newPhones tr w }) := by
  refine ⟨?_, rfl, ?_, ?_⟩
  · unfold shouldTranslate
    by_cases hsep : w = WORD_SENTENCE_SEPARATOR <;>
      by_cases hssml : isFromSSML w = true <;>
        by_cases htag : tagTypeOf w ∈ ssmlTagSkiplist <;>
          simp [hsep, hssml, htag]
  · intro h
    simp [translateWordStep, h]
  · intro h
    simp [translateWordStep, h]

theorem translate_words_condition_witness :
    (translateWordStep demoTr Alphabet.ipa demoWord).head? =
      some { demoWord with phone_sequence := newPhones demoTr demoWord } :=
  (translate_words_condition demoTr Alphabet.ipa demoWord).2.2.2 (by decide)

/-- C9: `translate_words` yields the input Words in input order; the head of
each per-word step is the input Word with every field unchanged except
`phone_sequence`, which is recomputed exactly when the translate condition
holds. -/
theorem translate_words_frame (tr : Str → List Str) (alph : Alphabet) (w : Word)
    (ws : List Word) :
    translateWords tr alph ws = joinL (ws.map (translateWordStep tr alph)) ∧
    (translateWordStep tr alph w).head? =
      some { w with phone_sequence :=
        if shouldTranslate w then newPhones tr w else w.phone_sequence } := by
  refine ⟨rfl, ?_⟩
  by_cases h : shouldTranslate w <;> simp [translateWordStep, h]

/-- C3 (evaluation at the failing input): a sentence-end token with a
recoverable original span produces no sentence separator sentinel at all in
the output of `_tokenize` — the sentinel yield is disabled in the source
although its docstring promises sentence boundaries. -/
theorem sentence_separator_never_emitted :
    ((tokenizeWords c3Toks).filter fun w => decide (w = WORD_SENTENCE_SEPARATOR)).length = 0 ∧
    c3SEnd ∈ c3Toks ∧ c3SEnd.kind = TokKind.s_end ∧
    c3SEnd.original ≠ [] ∧ c3SEnd.origin_spans ≠ [] ∧
    (tokenizeWords c3Toks).length = 1 := by decide

/-- C1 counterexample: for the well-formed token stream of the input
"\x7bfoo bar\x7d", the single emitted Word carries the offsets of the final
token only, so slicing the input buffer at its offsets does not reproduce
its `original_symbol`. -/
theorem norm_slice_counterexample :
    toksWF c1xText c1xToks ∧
    tokenizeWords c1xToks = [c1xWord] ∧
    c1xWord.start_byte_offset = some 5 ∧ c1xWord.end_byte_offset = some 9 ∧
    ((utf8Enc c1xText).drop 5).take (9 - 5) ≠ utf8Enc c1xWord.original_symbol := by decide

/-- C6 counterexample: with a transcriber that raises, running with a
non-stress alphabet leaves the syllable symbol cleared instead of restoring
the saved value — the toggle is not exception-safe. -/
theorem ice_toggle_counterexample :
    isOkE (iceTranslate c6TrFail c6Syl c6Text Alphabet.ipa).1 = false ∧
    (iceTranslate c6TrFail c6Syl c6Text Alphabet.ipa).2 = [] ∧
    c6Syl ≠ [] := by decide

/-- C6 amended: the syllable symbol is restored on every successful return,
and untouched in the stress-alphabet branch; but when the transcribe call
fails with a non-stress alphabet (on non-trivial input) the symbol is left
cleared. -/
theorem ice_toggle_restore_amended (transcribe : Str → Str → Except Unit Str)
    (syl text : Str) (alph : Alphabet) :
    (isOkE (iceTranslate transcribe syl text alph).1 = true →
      (iceTranslate transcribe syl text alph).2 = syl) ∧
    (alph = Alphabet.xsampaSyllStress → (iceTranslate transcribe syl text alph).2 = syl) ∧
    (isOkE (iceTranslate transcribe syl text alph).1 = false →
      alph ≠ Alphabet.xsampaSyllStress →
      (iceTranslate transcribe syl text alph).2 = []) := by
  by_cases h0 : stripStr (stripPunctAll text) = []
  · simp [iceTranslate, h0, isOkE]
  · by_cases ha : alph = Alphabet.xsampaSyllStress
    · cases htr : transcribe syl (toLowerStr (stripPunctAll text)) <;>
        simp [iceTranslate, h0, ha, htr, isOkE]
    · cases htr : transcribe [] (toLowerStr (stripPunctAll text)) <;>
        simp [iceTranslate, h0, ha, htr, isOkE]

theorem ice_toggle_restore_witness :
    (iceTranslate c6TrOk c6Syl c6Text Alphabet.ipa).2 = c6Syl :=
  (ice_toggle_restore_amended c6TrOk c6Syl c6Text Alphabet.ipa).1 (by decide)

/-- C7 (evaluation at the failing input): for the multi-word phoneme tag
"A B" whose pieces the external service returns as separate tokens followed
by "C", the realigner emits the full markup text but then advances past only
one service token, so the pair for "C" is processed as its own Word — the
cursor does not advance by the number of whitespace-separated pieces. -/
theorem grammatek_multiword_skip_eval :
    grammatekNormalize c7Parsed true c7Sentences c7Text =
      ([c7WordAB, c7WordC, WORD_SENTENCE_SEPARATOR], none) ∧
    c7WordAB.original_symbol = "A B".data ∧
    (splitWs c7WordAB.original_symbol).length = 2 ∧
    c7WordC.original_symbol = "C".data := by decide

/-- C8: the version fingerprint of the lexicon-backed translator is a
deterministic function of the lexicon bytes, equal for byte-identical inputs
and different whenever the bytes differ (in particular for a one-byte
change); the composed fingerprint is deterministic in the children's
fingerprints. -/
theorem version_hash_fingerprint (b b' : List Nat) (hs hs' : List Fingerprint) :
    (lexiconVersionHash b = lexiconVersionHash b' ↔ b = b') ∧
    lexiconVersionHash b = hashFromImpl lexiconClassName b ∧
    (hs = hs' → composedVersionHash hs = composedVersionHash hs') := by
  refine ⟨⟨?_, fun h => by rw [h]⟩, rfl, fun h => by rw [h]⟩
  intro h
  have h2 : (256 : Nat) :: b = 256 :: b' :=
    List.append_cancel_left (h : utf8Enc lexiconClassName ++ 256 :: b = _)
  simpa using h2

theorem version_hash_fingerprint_witness :
    composedVersionHash [[7]] = composedVersionHash [[7]] :=
  (version_hash_fingerprint [] [] [[7]] [[7]]).2.2 rfl

theorem tokLoop_open_no_closer (entries : List (Tok × Nat × Nat)) :
    ∀ segs, (∀ e ∈ entries, e.1.kind ≠ TokKind.s_end →
      endsWithC rbrace (stripStr e.1.original) = false) →
    tokLoop true segs entries = [] := by
  induction entries with
  | nil => intro segs _; rfl
  | cons e rest ih =>
    intro segs h
    obtain ⟨t, sOff, eOff⟩ := e
    by_cases hk : t.kind = TokKind.s_end
    · simp only [tokLoop, if_pos hk]
      exact ih segs fun e' he' => h e' (List.mem_cons_of_mem _ he')
    · have hcl : endsWithC rbrace (stripStr t.original) = false :=
        h ⟨t, sOff, eOff⟩ (by simp) hk
      simp only [tokLoop, if_neg hk, hcl, if_neg (by simp : ¬False)]
      simp [hcl]
      exact ih _ fun e' he' => h e' (List.mem_cons_of_mem _ he')

/-- C10: once a token whose stripped text starts with an opening brace and
does not end with a closing brace opens the inside-braces state, and no
following token's stripped text ends with a closing brace, the tokenizer
emits no Word for the opener or anything after it — the content is silently
dropped. -/
theorem unterminated_brace_dropped (segs : List Str) (opener : Tok) (sOff eOff : Nat)
    (rest : List (Tok × Nat × Nat)) (toks0 : List Tok) :
    (opener.kind ≠ TokKind.s_end → opensBraceTok opener = true →
      (∀ e ∈ rest, e.1.kind ≠ TokKind.s_end →
        endsWithC rbrace (stripStr e.1.original) = false) →
      tokLoop false segs ((opener, sOff, eOff) :: rest) = []) ∧
    tokenizeWords toks0 = tokLoop false [] (addTokenOffsets toks0) := by
  refine ⟨?_, rfl⟩
  intro hk hop hcl
  have hop' : (startsWithC lbrace (stripStr opener.original) &&
      !endsWithC rbrace (stripStr opener.original)) = true := hop
  simp only [tokLoop, if_neg hk, hop', if_pos rfl]
  simp [hop']
  exact tokLoop_open_no_closer rest _ hcl

theorem unterminated_brace_dropped_witness :
    tokLoop false [] ((c10Opener, 0, 3) :: c10Rest) = [] :=
  (unterminated_brace_dropped [] c10Opener 0 3 c10Rest []).1 (by decide) (by decide)
    (by decide)

theorem offsetsOf_cons (w : Word) (L : List Word) :
    offsetsOf (w :: L) =
      w.start_byte_offset.getD 0 :: w.end_byte_offset.getD 0 :: offsetsOf L := by
  simp [offsetsOf, joinL]

theorem chain_prepend (s e n' : Nat) (L : List Nat) (hse : s ≤ e) (hen : e ≤ n')
    (hL : List.Chain' (· ≤ ·) L) (hbound : ∀ x ∈ L, n' ≤ x) :
    List.Chain' (· ≤ ·) (s :: e :: L) := by
  rw [List.chain'_cons']
  refine ⟨fun b hb => ?_, ?_⟩
  · have hbe : e = b := by simpa using hb
    omega
  · rw [List.chain'_cons']
    exact ⟨fun b hb => le_trans hen (hbound b (List.mem_of_mem_head? hb)), hL⟩

theorem mono_step (n a b c : Nat) (L : List Nat) (hab : a + b ≤ c)
    (hchain : List.Chain' (· ≤ ·) L) (hbound : ∀ x ∈ L, n + c ≤ x) :
    List.Chain' (· ≤ ·) ((n + a) :: ((n + a) + b) :: L) ∧
    ∀ x ∈ (n + a) :: ((n + a) + b) :: L, n ≤ x := by
  constructor
  · exact chain_prepend _ _ (n + c) _ (Nat.le_add_right _ _) (by omega) hchain hbound
  · intro x hx
    rcases List.mem_cons.mp hx with rfl | hx
    · omega
    rcases List.mem_cons.mp hx with rfl | hx
    · omega
    · exact le_trans (Nat.le_add_right n c) (hbound x hx)

theorem tokLoop_mono (toks : List Tok) :
    ∀ n opn segs,
      List.Chain' (· ≤ ·) (offsetsOf (tokLoop opn segs (addTokenOffsetsFrom n toks))) ∧
      ∀ x ∈ offsetsOf (tokLoop opn segs (addTokenOffsetsFrom n toks)), n ≤ x := by
  induction toks with
  | nil =>
    intro n opn segs
    exact ⟨by simp [addTokenOffsetsFrom, tokLoop, offsetsOf, joinL],
           by simp [addTokenOffsetsFrom, tokLoop, offsetsOf, joinL]⟩
  | cons t ts ih =>
    intro n opn segs
    by_cases hk : t.kind = TokKind.s_end
    · simp only [addTokenOffsetsFrom, if_pos hk, tokLoop]
      exact ih n opn segs
    · by_cases hsp : (t.origin_spans.isEmpty || t.original.isEmpty) = true
      · simp only [addTokenOffsetsFrom, if_neg hk, if_pos hsp]
        exact ih n opn segs
      · have hab : utf8ByteLength (t.original.take (t.origin_spans.headD 0)) +
            utf8ByteLength ((t.original.drop (t.origin_spans.headD 0)).take
              (t.origin_spans.getLastD 0 + 1 - t.origin_spans.headD 0)) ≤
            utf8ByteLength t.original := by
          rw [← utf8ByteLength_append, ← List.take_add]
          exact utf8ByteLength_take_le _ _
        simp only [addTokenOffsetsFrom, if_neg hk, if_neg hsp, tokLoop]
        cases opn with
        | true =>
          by_cases hcl : endsWithC rbrace (stripStr t.original) = true
          · simp only [if_pos hcl, if_pos rfl, offsetsOf_cons, Option.getD_some]
            have ihr := ih (n + utf8ByteLength t.original) false []
            exact mono_step n _ _ _ _ hab ihr.1 ihr.2
          · simp only [if_neg hcl, if_pos rfl]
            have ihr := ih (n + utf8ByteLength t.original) true
              (segs ++ [stripStr t.original])
            exact ⟨ihr.1, fun x hx =>
              le_trans (Nat.le_add_right n _) (ihr.2 x hx)⟩
        | false =>
          by_cases hbr : (startsWithC lbrace (stripStr t.original) &&
              !endsWithC rbrace (stripStr t.original)) = true
          · simp only [Bool.false_eq_true, if_neg (by simp : ¬False), if_pos hbr]
            have ihr := ih (n + utf8ByteLength t.original) true
              (segs ++ [stripStr t.original])
            exact ⟨ihr.1, fun x hx =>
              le_trans (Nat.le_add_right n _) (ihr.2 x hx)⟩
          · simp only [Bool.false_eq_true, if_neg (by simp : ¬False), if_neg hbr,
              offsetsOf_cons, Option.getD_some]
            have ihr := ih (n + utf8ByteLength t.original) false segs
            exact mono_step n _ _ _ _ hab ihr.1 ihr.2

theorem tokLoop_slice (toks : List Tok) :
    ∀ pre : Str, (∀ t ∈ toks, tokOK t) → (∀ t ∈ toks, opensBraceTok t = false) →
    ∀ w ∈ tokLoop false [] (addTokenOffsetsFrom (utf8ByteLength pre) toks),
    ∀ s e, w.start_byte_offset = some s → w.end_byte_offset = some e →
    ((utf8Enc (pre ++ joinL (toks.map fun x => x.original))).drop s).take (e - s) =
      utf8Enc w.original_symbol := by
  induction toks with
  | nil =>
    intro pre _ _ w hw
    simp [addTokenOffsetsFrom, tokLoop] at hw
  | cons t ts ih =>
    intro pre hok hob w hw s e hs he
    have hokt : tokOK t := hok t (by simp)
    have hobt : opensBraceTok t = false := hob t (by simp)
    have hokts : ∀ x ∈ ts, tokOK x := fun x hx => hok x (by simp [hx])
    have hobts : ∀ x ∈ ts, opensBraceTok x = false := fun x hx => hob x (by simp [hx])
    by_cases hk : t.kind = TokKind.s_end
    · have horig : t.original = [] := hokt.1 hk
      simp only [addTokenOffsetsFrom, if_pos hk, tokLoop] at hw
      have hres := ih pre hokts hobts w hw s e hs he
      simpa [joinL, horig] using hres
    · by_cases hsp : (t.origin_spans.isEmpty || t.original.isEmpty) = true
      · have horig : t.original = [] := by
          rcases (Bool.or_eq_true _ _).mp hsp with h | h
          · exact hokt.2.1 (List.isEmpty_iff.mp h)
          · exact List.isEmpty_iff.mp h
        simp only [addTokenOffsetsFrom, if_neg hk, if_pos hsp] at hw
        have hres := ih pre hokts hobts w hw s e hs he
        simpa [joinL, horig] using hres
      · have hspn : t.origin_spans ≠ [] := by
          intro hnil
          simp [hnil] at hsp
        have hobt' : (startsWithC lbrace (stripStr t.original) &&
            !endsWithC rbrace (stripStr t.original)) = false := hobt
        simp only [addTokenOffsetsFrom, if_neg hk, if_neg hsp, tokLoop,
          Bool.false_eq_true, if_neg (by simp : ¬False), hobt',
          if_neg (by simp : ¬(false = true))] at hw
        rcases List.mem_cons.mp hw with rfl | hwtail
        · have hs' := Option.some.inj hs
          have he' := Option.some.inj he
          subst hs'
          subst he'
          have hmid : middleSlice t = stripStr t.original := hokt.2.2 hk hspn
          have horig_enc : utf8Enc t.original =
              utf8Enc (t.original.take (t.origin_spans.headD 0)) ++
              (utf8Enc (middleSlice t) ++
               utf8Enc ((t.original.drop (t.origin_spans.headD 0)).drop
                 (t.origin_spans.getLastD 0 + 1 - t.origin_spans.headD 0))) := by
            conv_lhs =>
              rw [← List.take_append_drop (t.origin_spans.headD 0) t.original]
            rw [utf8Enc_append]
            congr 1
            conv_lhs =>
              rw [← List.take_append_drop
                (t.origin_spans.getLastD 0 + 1 - t.origin_spans.headD 0)
                (t.original.drop (t.origin_spans.headD 0))]
            rw [utf8Enc_append]
            rfl
          have htext : utf8Enc (pre ++ joinL ((t :: ts).map fun x => x.original)) =
              utf8Enc pre ++
              (utf8Enc (t.original.take (t.origin_spans.headD 0)) ++
               (utf8Enc (middleSlice t) ++
                (utf8Enc ((t.original.drop (t.origin_spans.headD 0)).drop
                  (t.origin_spans.getLastD 0 + 1 - t.origin_spans.headD 0)) ++
                 utf8Enc (joinL (ts.map fun x => x.original))))) := by
            have hjoin : joinL ((t :: ts).map fun x => x.original) =
                t.original ++ joinL (ts.map fun x => x.original) := rfl
            rw [hjoin, utf8Enc_append, utf8Enc_append, horig_enc]
            simp [List.append_assoc]
          have hres := slice_calc (utf8Enc pre)
            (utf8Enc (t.original.take (t.origin_spans.headD 0)))
            (utf8Enc (middleSlice t))
            (utf8Enc ((t.original.drop (t.origin_spans.headD 0)).drop
              (t.origin_spans.getLastD 0 + 1 - t.origin_spans.headD 0)) ++
             utf8Enc (joinL (ts.map fun x => x.original)))
          rw [Nat.add_sub_cancel_left, htext, ← hmid]
          exact hres
        · have hw' : w ∈ tokLoop false []
              (addTokenOffsetsFrom (utf8ByteLength (pre ++ t.original)) ts) := by
            rw [utf8ByteLength_append]
            exact hwtail
          have hres := ih (pre ++ t.original) hokts hobts w hw' s e hs he
          have hjoin : joinL ((t :: ts).map fun x => x.original) =
              t.original ++ joinL (ts.map fun x => x.original) := rfl
          rw [hjoin, ← List.append_assoc]
          exact hres

/-- C1 (amended): the byte offsets of the `_tokenize` Word stream are
monotonically non-decreasing for every token stream; and under the
tokenizer contract, when no token opens a multi-token brace accumulation,
slicing the input buffer at each Word's offsets reproduces its
`original_symbol` byte-for-byte (brace-accumulated Words carry only the
closing token's offsets, see the counterexample). -/
theorem norm_offsets_slice (text : Str) (toks : List Tok) :
    List.Chain' (· ≤ ·) (offsetsOf (tokenizeWords toks)) ∧
    (toksWF text toks → (∀ t ∈ toks, opensBraceTok t = false) →
      ∀ w ∈ tokenizeWords toks, ∀ s e,
        w.start_byte_offset = some s → w.end_byte_offset = some e →
        ((utf8Enc text).drop s).take (e - s) = utf8Enc w.original_symbol) := by
  constructor
  · exact (tokLoop_mono toks 0 false []).1
  · intro hwf hob w hw s e hs he
    have hres := tokLoop_slice toks [] hwf.2 hob w hw s e hs he
    rw [hwf.1]
    simpa using hres

theorem norm_offsets_slice_witness :
    ((utf8Enc c1wText).drop 0).take (5 - 0) = utf8Enc c1wWord.original_symbol :=
  (norm_offsets_slice c1wText c1wToks).2 (by decide) (by decide) c1wWord (by decide)
    0 5 (by decide) (by decide)
